import Mathlib

/-!
Verification of the oxidized kernel's memory subsystem against its
natural-language specification. The Rust sources are shallowly embedded:
machine addresses are `Nat`, the bitvec page bitmap is a `List Bool`,
fallible operations return `Option` (with `none` standing for a Rust
panic or a returned error, as noted at each definition), and stateful
methods take and return explicit state values.
-/

/-! ## PageTracker (src/kernel/src/memory/page_tracker.rs)

`data: BitVec<u8>` is embedded as `List Bool`. `bitvec` indexing inside
the tracker is always guarded by a length check in the source, so
`List.getD _ _ false` agrees with the source's panicking index at every
reachable use.
-/

structure PageTracker where
  data : List Bool
deriving DecidableEq

/-- Source: `is_used(&self, index) -> bool` is `self.data.len() > index && self.data[index]`. -/
def PageTracker.is_used (t : PageTracker) (index : Nat) : Bool :=
  decide (index < t.data.length) && t.data.getD index false

/-- Source: `set_state` returns `Err(NotFound)` when `self.data.len() <= index`,
otherwise sets the bit. `none` embeds the `Err` case. -/
def PageTracker.set_state (t : PageTracker) (index : Nat) (state : Bool) : Option PageTracker :=
  if t.data.length ≤ index then none
  else some ⟨t.data.set index state⟩

/-- Source: `reserve(index)` is `set_state(index, true)`. -/
def PageTracker.reserve (t : PageTracker) (index : Nat) : Option PageTracker :=
  t.set_state index true

/-- Source: `free(index)` is `set_state(index, false)`. -/
def PageTracker.free (t : PageTracker) (index : Nat) : Option PageTracker :=
  t.set_state index false

/-- Source: `reserve_range(index, count)` loops `for i in index..(index + count)`
calling `reserve(i)?`. The tracker is mutated in place, so on an early `Err`
the already-reserved bits stay reserved; the embedding therefore returns the
(possibly partially mutated) tracker together with a success flag
(`false` = the loop returned `Err(NotFound)`). -/
def PageTracker.reserve_range (t : PageTracker) (index count : Nat) : PageTracker × Bool :=
  match count with
  | 0 => (t, true)
  | c + 1 =>
    match t.reserve index with
    | none => (t, false)
    | some t' => t'.reserve_range (index + 1) c

/-- Source: `free_range(index, count)`, same loop shape as `reserve_range`
with `free(i)?` in the body. -/
def PageTracker.free_range (t : PageTracker) (index count : Nat) : PageTracker × Bool :=
  match count with
  | 0 => (t, true)
  | c + 1 =>
    match t.free index with
    | none => (t, false)
    | some t' => t'.free_range (index + 1) c

/-- Source: `self.data.first_zero()` (bitvec): index of the first `false` bit. -/
def firstZero : List Bool → Option Nat
  | [] => none
  | b :: rest => if b then (firstZero rest).map (· + 1) else some 0

/-- The `while` loop of `find_free_range`: condition
`start_index < len && end_index < len && (end_index - start_index) < count`;
body restarts the window past `end_index` when `data[end_index] || data[start_index]`
holds, else widens the window. After the loop, `Err(NotFound)` when the window is
short, else `Ok(start_index)`. -/
def findFreeLoop (data : List Bool) (count s e : Nat) : Option Nat :=
  if h : s < data.length ∧ e < data.length ∧ e - s < count then
    if data.getD e false || data.getD s false then
      findFreeLoop data count (e + 1) (e + 1)
    else
      findFreeLoop data count s (e + 1)
  else if e - s < count then none
  else some s
termination_by data.length - e
decreasing_by
  · obtain ⟨h1, h2, h3⟩ := h; omega
  · obtain ⟨h1, h2, h3⟩ := h; omega

/-- Source: `find_free_range(start_index, count)`: `NotFound` when the bitmap has
no zero at all, else the scan starts at `max(start_index, first_zero)`. -/
def PageTracker.find_free_range (t : PageTracker) (start_index count : Nat) : Option Nat :=
  match firstZero t.data with
  | none => none
  | some fz =>
    let s := if fz > start_index then fz else start_index
    findFreeLoop t.data count s s

/-- A window of `n` consecutive free (false) bits starting at index `i`,
entirely inside the tracker. -/
def windowFree (data : List Bool) (i n : Nat) : Prop :=
  i + n ≤ data.length ∧ ∀ j, j < n → data.getD (i + j) false = false

instance (data : List Bool) (i n : Nat) : Decidable (windowFree data i n) := by
  unfold windowFree
  infer_instance

lemma getD_set_bool (l : List Bool) (p j : Nat) (b : Bool) :
    (l.set p b).getD j false = if p = j ∧ j < l.length then b else l.getD j false := by
  induction l generalizing p j with
  | nil => simp [List.set]
  | cons a tl ih =>
    cases p with
    | zero =>
      cases j with
      | zero => simp
      | succ j' => simp [List.set]
    | succ p' =>
      cases j with
      | zero => simp [List.set]
      | succ j' =>
        simp only [List.set, List.getD_cons_succ, List.length_cons, ih p' j']
        have hiff : (p' = j' ∧ j' < tl.length) ↔ (p' + 1 = j' + 1 ∧ j' + 1 < tl.length + 1) := by
          omega
        simp only [hiff]

lemma length_set_bool (l : List Bool) (p : Nat) (b : Bool) :
    (l.set p b).length = l.length := by
  simp

lemma reserve_range_char (n : Nat) : ∀ (t : PageTracker) (i : Nat),
    ((t.reserve_range i n).2 = true ↔ (n = 0 ∨ i + n ≤ t.data.length)) ∧
    (t.reserve_range i n).1.data.length = t.data.length ∧
    ∀ j, (t.reserve_range i n).1.data.getD j false =
      if i ≤ j ∧ j < i + n ∧ j < t.data.length then true else t.data.getD j false := by
  induction n with
  | zero =>
    intro t i
    refine ⟨by simp [PageTracker.reserve_range], rfl, ?_⟩
    intro j
    have hc : ¬ (i ≤ j ∧ j < i + 0 ∧ j < t.data.length) := by omega
    simp only [PageTracker.reserve_range]
    rw [if_neg hc]
  | succ c ih =>
    intro t i
    unfold PageTracker.reserve_range
    by_cases hlen : t.data.length ≤ i
    · have hres : t.reserve i = none := by
        simp [PageTracker.reserve, PageTracker.set_state, hlen]
      refine ⟨?_, ?_, ?_⟩
      · simp [hres]; omega
      · simp [hres]
      · intro j
        have hc : ¬ (i ≤ j ∧ j < i + (c + 1) ∧ j < t.data.length) := by omega
        simp only [hres]
        rw [if_neg hc]
    · have hres : t.reserve i = some ⟨t.data.set i true⟩ := by
        simp [PageTracker.reserve, PageTracker.set_state, hlen]
      obtain ⟨ih1, ih2, ih3⟩ := ih ⟨t.data.set i true⟩ (i + 1)
      have hlset : (t.data.set i true).length = t.data.length := by simp
      refine ⟨?_, ?_, ?_⟩
      · simp only [hres]
        rw [ih1]
        simp only [hlset]
        omega
      · simp only [hres]
        rw [ih2]
        simpa using hlset
      · intro j
        simp only [hres]
        rw [ih3 j]
        simp only [hlset, getD_set_bool]
        by_cases hA : i ≤ j ∧ j < i + (c + 1) ∧ j < t.data.length
        · rw [if_pos hA]
          by_cases hB : i + 1 ≤ j ∧ j < i + 1 + c ∧ j < t.data.length
          · rw [if_pos hB]
          · rw [if_neg hB, if_pos (show i = j ∧ j < t.data.length by omega)]
        · rw [if_neg hA, if_neg (show ¬ (i + 1 ≤ j ∧ j < i + 1 + c ∧ j < t.data.length) by omega),
            if_neg (show ¬ (i = j ∧ j < t.data.length) by omega)]

lemma free_range_char (n : Nat) : ∀ (t : PageTracker) (i : Nat),
    ((t.free_range i n).2 = true ↔ (n = 0 ∨ i + n ≤ t.data.length)) ∧
    (t.free_range i n).1.data.length = t.data.length ∧
    ∀ j, (t.free_range i n).1.data.getD j false =
      if i ≤ j ∧ j < i + n ∧ j < t.data.length then false else t.data.getD j false := by
  induction n with
  | zero =>
    intro t i
    refine ⟨by simp [PageTracker.free_range], rfl, ?_⟩
    intro j
    have hc : ¬ (i ≤ j ∧ j < i + 0 ∧ j < t.data.length) := by omega
    simp only [PageTracker.free_range]
    rw [if_neg hc]
  | succ c ih =>
    intro t i
    unfold PageTracker.free_range
    by_cases hlen : t.data.length ≤ i
    · have hres : t.free i = none := by
        simp [PageTracker.free, PageTracker.set_state, hlen]
      refine ⟨?_, ?_, ?_⟩
      · simp [hres]; omega
      · simp [hres]
      · intro j
        have hc : ¬ (i ≤ j ∧ j < i + (c + 1) ∧ j < t.data.length) := by omega
        simp only [hres]
        rw [if_neg hc]
    · have hres : t.free i = some ⟨t.data.set i false⟩ := by
        simp [PageTracker.free, PageTracker.set_state, hlen]
      obtain ⟨ih1, ih2, ih3⟩ := ih ⟨t.data.set i false⟩ (i + 1)
      have hlset : (t.data.set i false).length = t.data.length := by simp
      refine ⟨?_, ?_, ?_⟩
      · simp only [hres]
        rw [ih1]
        simp only [hlset]
        omega
      · simp only [hres]
        rw [ih2]
        simpa using hlset
      · intro j
        simp only [hres]
        rw [ih3 j]
        simp only [hlset, getD_set_bool]
        by_cases hA : i ≤ j ∧ j < i + (c + 1) ∧ j < t.data.length
        · rw [if_pos hA]
          by_cases hB : i + 1 ≤ j ∧ j < i + 1 + c ∧ j < t.data.length
          · rw [if_pos hB]
          · rw [if_neg hB, if_pos (show i = j ∧ j < t.data.length by omega)]
        · rw [if_neg hA, if_neg (show ¬ (i + 1 ≤ j ∧ j < i + 1 + c ∧ j < t.data.length) by omega),
            if_neg (show ¬ (i = j ∧ j < t.data.length) by omega)]

/-- Claim C10, counterexample: `reserve_range(1, 0)` on a zero-length tracker
returns `Ok` although `i + n = 1` exceeds the tracker's length `0`, so failure
is not "exactly when i + n exceeds the length". -/
theorem reserve_range_count_zero_cex :
    (PageTracker.reserve_range ⟨[]⟩ 1 0).2 = true ∧
    (PageTracker.mk []).data.length < 1 + 0 :=
  ⟨rfl, by decide⟩

/-- Claim C10 (amended): `reserve_range(i, n)` (and likewise `free_range`)
returns `NotFound` exactly when `n > 0` and `i + n` exceeds the tracker's
length; the bits at the in-range indices `[i, length)` are mutated before the
failing index is reached and are not rolled back (the result's bit at `j` is
the written value whenever `i ≤ j < min(i+n, length)`, and the old value
elsewhere), so the operation is not atomic on error. -/
theorem reserve_free_range_err_char (t : PageTracker) (i n : Nat) :
    ((t.reserve_range i n).2 = false ↔ 0 < n ∧ t.data.length < i + n) ∧
    ((t.free_range i n).2 = false ↔ 0 < n ∧ t.data.length < i + n) ∧
    (∀ j, (t.reserve_range i n).1.data.getD j false =
      if i ≤ j ∧ j < i + n ∧ j < t.data.length then true else t.data.getD j false) ∧
    (∀ j, (t.free_range i n).1.data.getD j false =
      if i ≤ j ∧ j < i + n ∧ j < t.data.length then false else t.data.getD j false) := by
  obtain ⟨r1, -, r3⟩ := reserve_range_char n t i
  obtain ⟨f1, -, f3⟩ := free_range_char n t i
  refine ⟨?_, ?_, r3, f3⟩
  · rw [← Bool.not_eq_true, r1]
    omega
  · rw [← Bool.not_eq_true, f1]
    omega

lemma findFreeLoop_eq (data : List Bool) (count s e : Nat) :
    findFreeLoop data count s e =
      if h : s < data.length ∧ e < data.length ∧ e - s < count then
        if data.getD e false || data.getD s false then
          findFreeLoop data count (e + 1) (e + 1)
        else findFreeLoop data count s (e + 1)
      else if e - s < count then none
      else some s := by
  rw [findFreeLoop]

lemma findFreeLoop_sound (data : List Bool) (count : Nat) :
    ∀ (m s e : Nat), data.length - e ≤ m → s ≤ e →
    (s < e → e ≤ data.length ∧ ∀ j, s ≤ j → j < e → data.getD j false = false) →
    ∀ i, findFreeLoop data count s e = some i →
      s ≤ i ∧ (1 ≤ count → windowFree data i count) := by
  intro m
  induction m with
  | zero =>
    intro s e hm hse hinv i hloop
    rw [findFreeLoop_eq] at hloop
    have hguard : ¬ (s < data.length ∧ e < data.length ∧ e - s < count) := by omega
    rw [dif_neg hguard] at hloop
    by_cases hshort : e - s < count
    · rw [if_pos hshort] at hloop
      exact absurd hloop (by simp)
    · rw [if_neg hshort] at hloop
      have hi : i = s := by
        simpa using hloop.symm
      subst hi
      refine ⟨Nat.le_refl i, fun hcnt => ?_⟩
      have hlt : i < e := by omega
      obtain ⟨hle, hfree⟩ := hinv hlt
      refine ⟨by omega, fun j hj => hfree (i + j) (by omega) (by omega)⟩
  | succ m ih =>
    intro s e hm hse hinv i hloop
    rw [findFreeLoop_eq] at hloop
    by_cases hguard : s < data.length ∧ e < data.length ∧ e - s < count
    · rw [dif_pos hguard] at hloop
      by_cases hbit : data.getD e false || data.getD s false
      · rw [if_pos hbit] at hloop
        have := ih (e + 1) (e + 1) (by omega) (Nat.le_refl _) (by omega) i hloop
        exact ⟨by omega, this.2⟩
      · rw [if_neg hbit] at hloop
        have hbe : data.getD e false = false := by
          revert hbit
          cases data.getD e false <;> simp
        refine ih s (e + 1) (by omega) (by omega) ?_ i hloop
        intro hlt
        refine ⟨by omega, fun j hj1 hj2 => ?_⟩
        by_cases hje : j = e
        · rw [hje]; exact hbe
        · have hlt2 : s < e := by omega
          exact (hinv hlt2).2 j hj1 (by omega)
    · rw [dif_neg hguard] at hloop
      by_cases hshort : e - s < count
      · rw [if_pos hshort] at hloop
        exact absurd hloop (by simp)
      · rw [if_neg hshort] at hloop
        have hi : i = s := by
          simpa using hloop.symm
        subst hi
        refine ⟨Nat.le_refl i, fun hcnt => ?_⟩
        have hlt : i < e := by omega
        obtain ⟨hle, hfree⟩ := hinv hlt
        refine ⟨by omega, fun j hj => hfree (i + j) (by omega) (by omega)⟩

lemma findFreeLoop_complete (data : List Bool) (count : Nat) (hcnt : 1 ≤ count) (s0 : Nat) :
    ∀ (m s e : Nat), data.length - e ≤ m → s0 ≤ s → s ≤ e →
    (s < e → e ≤ data.length ∧ ∀ j, s ≤ j → j < e → data.getD j false = false) →
    (∀ i, s0 ≤ i → i < s → ¬ windowFree data i count) →
    findFreeLoop data count s e = none →
    ∀ i, s0 ≤ i → ¬ windowFree data i count := by
  intro m
  induction m with
  | zero =>
    intro s e hm hs0 hse hinv hno hloop i hi
    rw [findFreeLoop_eq] at hloop
    have hguard : ¬ (s < data.length ∧ e < data.length ∧ e - s < count) := by omega
    rw [dif_neg hguard] at hloop
    by_cases hshort : e - s < count
    · intro hwin
      rcases Nat.lt_or_ge i s with hlt | hge
      · exact hno i hi hlt hwin
      · have hlen : i + count ≤ data.length := hwin.1
        omega
    · rw [if_neg hshort] at hloop
      exact absurd hloop (by simp)
  | succ m ih =>
    intro s e hm hs0 hse hinv hno hloop i hi
    rw [findFreeLoop_eq] at hloop
    by_cases hguard : s < data.length ∧ e < data.length ∧ e - s < count
    · rw [dif_pos hguard] at hloop
      by_cases hbit : data.getD e false || data.getD s false
      · rw [if_pos hbit] at hloop
        have hbit2 : data.getD e false = true ∨ data.getD s false = true := by
          simpa using hbit
        have hbe : data.getD e false = true := by
          rcases hbit2 with h | h
          · exact h
          · rcases Nat.lt_or_ge s e with hlt | hge
            · have hfree_s := (hinv hlt).2 s (Nat.le_refl s) hlt
              rw [h] at hfree_s
              exact absurd hfree_s (by decide)
            · have hseq : s = e := by omega
              rw [← hseq]; exact h
        refine ih (e + 1) (e + 1) (by omega) (by omega) (Nat.le_refl _) (by omega) ?_ hloop i hi
        intro k hk0 hk1
        rcases Nat.lt_or_ge k s with hlt | hge
        · exact hno k hk0 hlt
        · intro hwin
          have hfree_e : data.getD e false = false := by
            have h1 := hwin.2 (e - k) (by omega)
            have he : k + (e - k) = e := by omega
            rwa [he] at h1
          rw [hbe] at hfree_e
          exact absurd hfree_e (by decide)
      · rw [if_neg hbit] at hloop
        have hbe : data.getD e false = false := by
          revert hbit
          cases data.getD e false <;> simp
        refine ih s (e + 1) (by omega) hs0 (by omega) ?_ hno hloop i hi
        intro hlt
        refine ⟨by omega, fun j hj1 hj2 => ?_⟩
        by_cases hje : j = e
        · rw [hje]; exact hbe
        · have hlt2 : s < e := by omega
          exact (hinv hlt2).2 j hj1 (by omega)
    · rw [dif_neg hguard] at hloop
      by_cases hshort : e - s < count
      · intro hwin
        rcases Nat.lt_or_ge i s with hlt | hge
        · exact hno i hi hlt hwin
        · have hlen : i + count ≤ data.length := hwin.1
          omega
      · rw [if_neg hshort] at hloop
        exact absurd hloop (by simp)

lemma firstZero_some (l : List Bool) : ∀ fz, firstZero l = some fz →
    fz < l.length ∧ l.getD fz false = false ∧ ∀ j, j < fz → l.getD j false = true := by
  induction l with
  | nil => intro fz h; exact absurd h (by simp [firstZero])
  | cons b rest ih =>
    intro fz h
    by_cases hb : b = true
    · rw [firstZero, if_pos hb] at h
      cases hrest : firstZero rest with
      | none => rw [hrest] at h; exact absurd h (by simp)
      | some fz' =>
        rw [hrest] at h
        have hfz : fz = fz' + 1 := by simpa using h.symm
        subst hfz
        obtain ⟨ih1, ih2, ih3⟩ := ih fz' hrest
        refine ⟨by simpa using ih1, by simpa using ih2, ?_⟩
        intro j hj
        cases j with
        | zero => simpa using hb
        | succ j' => simpa using ih3 j' (by omega)
    · have hb' : b = false := by revert hb; cases b <;> simp
      subst hb'
      rw [firstZero, if_neg (by simp)] at h
      have hfz : fz = 0 := by simpa using h.symm
      subst hfz
      exact ⟨by simp, by simp, fun j hj => absurd hj (by omega)⟩

lemma firstZero_none (l : List Bool) : firstZero l = none →
    ∀ j, j < l.length → l.getD j false = true := by
  induction l with
  | nil => intro _ j hj; simp at hj
  | cons b rest ih =>
    intro h j hj
    by_cases hb : b = true
    · rw [firstZero, if_pos hb] at h
      cases j with
      | zero => simpa using hb
      | succ j' =>
        cases hrest : firstZero rest with
        | none => simpa using ih hrest j' (by simpa using hj)
        | some fz' => rw [hrest] at h; exact absurd h (by simp)
    · have hb' : b = false := by revert hb; cases b <;> simp
      subst hb'
      rw [firstZero, if_neg (by simp)] at h
      exact absurd h (by simp)

/-- Claim C7, counterexample: with the tracker `[used]`, start `0` and window
size `0`, `find_free_range` returns `NotFound` (the bitmap has no zero bit at
all, so the scan is never entered), yet a window of size `0` at index `0 ≥ 0`
exists vacuously. So the claim's "returns NotFound when no such window of size
n exists at or after s" fails for n = 0. -/
theorem find_free_range_size_zero_cex :
    PageTracker.find_free_range ⟨[true]⟩ 0 0 = none ∧ windowFree [true] 0 0 := by
  constructor
  · rfl
  · exact ⟨by decide, fun j hj => absurd hj (by omega)⟩

/-- Claim C7 (amended): for every tracker state, start index s and window size
n ≥ 1, find_free_range(s, n) returns Ok(i) only when i ≥ s and all n bits in
[i, i+n) are free, and returns NotFound exactly when no window of n free bits
exists at or after s (the forward scan from max(s, first_zero), restarting past
used bits, finds a window whenever one exists). -/
theorem find_free_range_spec (t : PageTracker) (s n : Nat) (hn : 1 ≤ n) :
    (∀ i, t.find_free_range s n = some i → s ≤ i ∧ windowFree t.data i n) ∧
    (t.find_free_range s n = none → ∀ i, s ≤ i → ¬ windowFree t.data i n) := by
  cases hfz : firstZero t.data with
  | none =>
    constructor
    · intro i hsome
      rw [PageTracker.find_free_range, hfz] at hsome
      exact absurd hsome (by simp)
    · intro _ i hi hwin
      have h0 := hwin.2 0 (by omega)
      have hlt : i < t.data.length := by
        have := hwin.1
        omega
      have htrue := firstZero_none t.data hfz i hlt
      rw [show i + 0 = i by omega] at h0
      rw [htrue] at h0
      exact absurd h0 (by decide)
  | some fz =>
    obtain ⟨hfz1, hfz2, hfz3⟩ := firstZero_some t.data fz hfz
    constructor
    · intro i hsome
      rw [PageTracker.find_free_range, hfz] at hsome
      simp only at hsome
      have hs_le : s ≤ (if fz > s then fz else s) := by split <;> omega
      have := findFreeLoop_sound t.data n t.data.length
        (if fz > s then fz else s) (if fz > s then fz else s)
        (by omega) (Nat.le_refl _) (fun h => absurd h (by omega)) i hsome
      exact ⟨by omega, this.2 hn⟩
    · intro hnone i hi
      rw [PageTracker.find_free_range, hfz] at hnone
      simp only at hnone
      refine findFreeLoop_complete t.data n hn s t.data.length
        (if fz > s then fz else s) (if fz > s then fz else s)
        (by omega) (by split <;> omega) (Nat.le_refl _)
        (fun h => absurd h (by omega)) ?_ hnone i hi
      intro k hk0 hk1 hwin
      have hkfz : k < fz := by
        by_cases h : fz > s
        · rw [if_pos h] at hk1; exact hk1
        · rw [if_neg h] at hk1; omega
      have htrue := hfz3 k hkfz
      have h0 := hwin.2 0 (by omega)
      rw [show k + 0 = k by omega] at h0
      rw [htrue] at h0
      exact absurd h0 (by decide)

/-- Witness for the amended C7 theorem at a concrete input: on tracker
`[used, free, free]` with start 0 and window 2 the scan returns index 1,
which is ≥ 0 and a free window of size 2. -/
theorem find_free_range_spec_witness :
    0 ≤ 1 ∧ windowFree [true, false, false] 1 2 :=
  (find_free_range_spec ⟨[true, false, false]⟩ 0 2 (by decide)).1 1 (by
    simp [PageTracker.find_free_range, firstZero, findFreeLoop_eq])

/-! ## BootInfoFrameAllocator (src/kernel/src/memory/allocator.rs)

The `used_pages: BitArray` bitmap is embedded as `List Bool` (fixed length
`MAX_SUPPORTED_PAGES` in the source; the embedding keeps the length abstract).
Physical addresses are `Nat`. `bitvec`'s `set` panics out of bounds, embedded
as `none` where the source can reach it unguarded.
-/

inductive MemoryRegionKind where
  | Usable
  | Bootloader
  | UnknownBios
  | UnknownUefi
deriving DecidableEq

structure MemoryRegion where
  start : Nat
  stop : Nat
  kind : MemoryRegionKind
deriving DecidableEq

/-- Rust `(start..stop).step_by(4096)`: `start, start + 4096, ...` while below
`stop`. -/
def stepBy4096 (start stop : Nat) : List Nat :=
  (List.range ((stop - start + 4095) / 4096)).map (fun k => start + 4096 * k)

/-- Source: `get_page(frame) = frame >> 12`. -/
def get_page (frame : Nat) : Nat := frame >>> 12

structure FrameAllocState where
  regions : List MemoryRegion
  next : Nat
  used : List Bool
deriving DecidableEq

/-- Source: `usable_frames()` — Usable regions, mapped to `start..end` ranges,
flat-mapped through `step_by(4096)`, then each address through
`PhysFrame::containing_address` (align down to 4 KiB). -/
def usable_frames (regions : List MemoryRegion) : List Nat :=
  (((regions.filter (fun r => r.kind == MemoryRegionKind.Usable)).map
      (fun r => stepBy4096 r.start r.stop)).flatten).map (fun a => a / 4096 * 4096)

/-- The marking loop of `BootInfoFrameAllocator::init`. Source:
`if page < self.used_pages.len() { continue; } self.used_pages.set(page, true);`
— the guard is inverted relative to its own comment ("This memory is not
addressable"): every in-bounds page is skipped, and the `set` is reached only
when `page` is out of bounds, where bitvec's `set` panics (embedded `none`). -/
def initMarkLoop : List Nat → List Bool → Option (List Bool)
  | [], used => some used
  | a :: rest, used =>
    if get_page a < used.length then initMarkLoop rest used
    else none

/-- The addresses the init marking loop iterates: regions with
`kind != Usable`, as `start..end` ranges stepped by `PAGE_SIZE`. -/
def nonUsableStepAddresses (regions : List MemoryRegion) : List Nat :=
  ((regions.filter (fun r => r.kind != MemoryRegionKind.Usable)).map
    (fun r => stepBy4096 r.start r.stop)).flatten

/-- The `next` computed at the end of `init`: the number of leading
conventional (< 1 MiB) frames of `usable_frames()`. -/
def initNext (regions : List MemoryRegion) : Nat :=
  ((usable_frames regions).takeWhile (fun f => decide (f < 0x100000))).length

/-- Source: `BootInfoFrameAllocator::init(memory_map)`. -/
def BootInfoFrameAllocator.init (s : FrameAllocState) (memory_map : List MemoryRegion) :
    Option FrameAllocState :=
  match initMarkLoop (nonUsableStepAddresses memory_map) s.used with
  | none => none
  | some used' => some { regions := memory_map, next := initNext memory_map, used := used' }

/-- The inner `for` loop of `allocate_frame` over `usable_frames().skip(next)`:
conventional (< 1 MiB) frames are skipped without incrementing `current_frame`;
an out-of-range page breaks the loop (falls through to the retry logic, `none`
here); a frame whose page bit is clear is claimed and returned. -/
def allocInner : List Nat → List Bool → Nat → Option (Nat × Nat × List Bool)
  | [], _, _ => none
  | f :: rest, used, current =>
    if f < 0x100000 then allocInner rest used current
    else
      if used.length ≤ get_page f then none
      else if used.getD (get_page f) false then allocInner rest used (current + 1)
      else some (f, current + 1, used.set (get_page f) true)

/-- Source: `allocate_frame` (impl FrameAllocator for BootInfoFrameAllocator).
The outer `loop` makes at most two passes: one from `self.next`, and - when
that fails and `next` was nonzero - one from 0; a second failure with
`next == 0` returns `None`. -/
def BootInfoFrameAllocator.allocate_frame (s : FrameAllocState) :
    Option (Nat × FrameAllocState) :=
  match allocInner ((usable_frames s.regions).drop s.next) s.used s.next with
  | some (f, next', used') => some (f, { s with next := next', used := used' })
  | none =>
    if s.next = 0 then none
    else
      match allocInner (usable_frames s.regions) s.used 0 with
      | some (f, next', used') => some (f, { s with next := next', used := used' })
      | none => none

/-- Source: `free(frame)`: clear the bit of the frame's page. -/
def BootInfoFrameAllocator.free (s : FrameAllocState) (frame : Nat) : FrameAllocState :=
  { s with used := s.used.set (get_page frame) false }

/-- The loop of `allocate_conventional_memory_frame` over
`usable_frames().filter(|f| f.start_address() < 0x100000)`. -/
def convInner : List Nat → List Bool → Option (Nat × List Bool)
  | [], _ => none
  | f :: rest, used =>
    if used.getD (get_page f) false then convInner rest used
    else some (f, used.set (get_page f) true)

/-- Source: `allocate_conventional_memory_frame`. -/
def BootInfoFrameAllocator.allocate_conventional_memory_frame (s : FrameAllocState) :
    Option (Nat × FrameAllocState) :=
  match convInner ((usable_frames s.regions).filter (fun f => decide (f < 0x100000))) s.used with
  | none => none
  | some (f, used') => some (f, { s with used := used' })

/-- Source: `force_allocate(frame)`: `expect` panics above the supported range,
a used page panics, else the page is marked used and the frame returned. -/
def BootInfoFrameAllocator.force_allocate (s : FrameAllocState) (frame : Nat) :
    Option (Nat × FrameAllocState) :=
  if get_page frame < s.used.length then
    if s.used.getD (get_page frame) false then none
    else some (frame, { s with used := s.used.set (get_page frame) true })
  else none

/-- Claim C1 (code bug): whenever every stepped address of every non-Usable
region has its page in bounds of the bitmap (always true below the supported
8 TiB), `init` returns with the page-usage bitmap COMPLETELY UNCHANGED: the
inverted bounds check skips every in-bounds page, so no firmware-reserved page
and no zero page is ever marked used. -/
theorem init_marks_no_pages (s : FrameAllocState) (memory_map : List MemoryRegion)
    (h : ∀ a ∈ nonUsableStepAddresses memory_map, get_page a < s.used.length) :
    BootInfoFrameAllocator.init s memory_map =
      some { regions := memory_map, next := initNext memory_map, used := s.used } := by
  have hloop : ∀ (l : List Nat) (used : List Bool), (∀ a ∈ l, get_page a < used.length) →
      initMarkLoop l used = some used := by
    intro l
    induction l with
    | nil => intro used _; rfl
    | cons a rest ih =>
      intro used hall
      rw [initMarkLoop, if_pos (hall a (by simp))]
      exact ih used (fun b hb => hall b (by simp [hb]))
  rw [BootInfoFrameAllocator.init, hloop _ s.used h]

/-- Witness for the C1 bug theorem: a map with a non-Usable (Bootloader)
region covering pages 1 and 2 and a Usable region; after `init` the bitmap is
still all-false - neither the firmware-reserved pages nor page 0 are
reserved. -/
theorem init_marks_no_pages_witness :
    BootInfoFrameAllocator.init ⟨[], 0, List.replicate 64 false⟩
        [⟨0x1000, 0x3000, MemoryRegionKind.Bootloader⟩,
         ⟨0x100000, 0x102000, MemoryRegionKind.Usable⟩] =
      some ⟨[⟨0x1000, 0x3000, MemoryRegionKind.Bootloader⟩,
             ⟨0x100000, 0x102000, MemoryRegionKind.Usable⟩], 0,
            List.replicate 64 false⟩ :=
  init_marks_no_pages ⟨[], 0, List.replicate 64 false⟩
    [⟨0x1000, 0x3000, MemoryRegionKind.Bootloader⟩,
     ⟨0x100000, 0x102000, MemoryRegionKind.Usable⟩] (by decide)

lemma allocInner_some (l : List Nat) :
    ∀ (used : List Bool) (current f next' : Nat) (used' : List Bool),
    allocInner l used current = some (f, next', used') →
    0x100000 ≤ f ∧ get_page f < used.length ∧ used.getD (get_page f) false = false ∧
      used' = used.set (get_page f) true := by
  induction l with
  | nil =>
    intro used current f n u h
    exact absurd h (by simp [allocInner])
  | cons a rest ih =>
    intro used current f n u h
    rw [allocInner] at h
    by_cases h1 : a < 0x100000
    · rw [if_pos h1] at h
      exact ih used current f n u h
    · rw [if_neg h1] at h
      by_cases h2 : used.length ≤ get_page a
      · rw [if_pos h2] at h
        exact absurd h (by simp)
      · rw [if_neg h2] at h
        by_cases h3 : used.getD (get_page a) false = true
        · rw [if_pos h3] at h
          exact ih used (current + 1) f n u h
        · rw [if_neg h3] at h
          obtain ⟨hf, hn, hu⟩ : a = f ∧ current + 1 = n ∧ used.set (get_page a) true = u := by
            simpa using h
          refine ⟨?_, ?_, ?_, ?_⟩
          · rw [← hf]; omega
          · rw [← hf]; omega
          · rw [← hf]
            revert h3
            cases used.getD (get_page a) false <;> simp
          · rw [← hf, ← hu]

lemma convInner_mem (l : List Nat) :
    ∀ (used : List Bool) (g : Nat) (u : List Bool),
    convInner l used = some (g, u) → g ∈ l := by
  induction l with
  | nil =>
    intro used g u h
    exact absurd h (by simp [convInner])
  | cons a rest ih =>
    intro used g u h
    rw [convInner] at h
    by_cases h1 : used.getD (get_page a) false = true
    · rw [if_pos h1] at h
      exact List.mem_cons_of_mem a (ih used g u h)
    · rw [if_neg h1] at h
      have hag : a = g ∧ used.set (get_page a) true = u := by simpa using h
      rw [← hag.1]
      exact List.mem_cons_self a rest

lemma allocate_frame_char (s : FrameAllocState) (f : Nat) (s' : FrameAllocState)
    (h : BootInfoFrameAllocator.allocate_frame s = some (f, s')) :
    0x100000 ≤ f ∧ get_page f < s.used.length ∧ s.used.getD (get_page f) false = false ∧
      s'.used = s.used.set (get_page f) true := by
  rw [BootInfoFrameAllocator.allocate_frame] at h
  cases h1 : allocInner ((usable_frames s.regions).drop s.next) s.used s.next with
  | some v =>
    obtain ⟨v1, v2, v3⟩ := v
    rw [h1] at h
    simp only [Option.some.injEq, Prod.mk.injEq] at h
    obtain ⟨hv1, hs'⟩ := h
    have hch := allocInner_some _ _ _ _ _ _ h1
    subst hv1
    refine ⟨hch.1, hch.2.1, hch.2.2.1, ?_⟩
    rw [← hs']
    exact hch.2.2.2
  | none =>
    rw [h1] at h
    by_cases h2 : s.next = 0
    · rw [if_pos h2] at h
      exact absurd h (by simp)
    · rw [if_neg h2] at h
      cases h3 : allocInner (usable_frames s.regions) s.used 0 with
      | some w =>
        obtain ⟨w1, w2, w3⟩ := w
        rw [h3] at h
        simp only [Option.some.injEq, Prod.mk.injEq] at h
        obtain ⟨hw1, hs'⟩ := h
        have hch := allocInner_some _ _ _ _ _ _ h3
        subst hw1
        refine ⟨hch.1, hch.2.1, hch.2.2.1, ?_⟩
        rw [← hs']
        exact hch.2.2.2
      | none =>
        rw [h3] at h
        exact absurd h (by simp)

/-- Claim C4: `allocate_frame` only ever returns frames at or above 1 MiB
(in particular never the zero frame); the conventional-memory path, by
contrast, only returns frames strictly below 1 MiB. -/
theorem allocate_frame_above_one_mib (s : FrameAllocState) (f : Nat) (s' : FrameAllocState)
    (h : BootInfoFrameAllocator.allocate_frame s = some (f, s')) :
    0x100000 ≤ f ∧ f ≠ 0 ∧
      (∀ g t', BootInfoFrameAllocator.allocate_conventional_memory_frame s = some (g, t') →
        g < 0x100000) := by
  have hmain := (allocate_frame_char s f s' h).1
  refine ⟨hmain, by omega, ?_⟩
  intro g t' hconv
  rw [BootInfoFrameAllocator.allocate_conventional_memory_frame] at hconv
  cases h1 : convInner ((usable_frames s.regions).filter (fun x => decide (x < 0x100000)))
      s.used with
  | none =>
    rw [h1] at hconv
    exact absurd hconv (by simp)
  | some v =>
    obtain ⟨v1, v2⟩ := v
    rw [h1] at hconv
    simp only [Option.some.injEq, Prod.mk.injEq] at hconv
    have hg : v1 = g := hconv.1
    have hmem := convInner_mem _ _ _ _ h1
    rw [hg] at hmem
    have := List.mem_filter.mp hmem
    simpa using this.2

set_option maxRecDepth 100000 in
/-- Witness for C4 at a concrete state: one Usable region `[1 MiB, 1 MiB + 8 KiB)`
and an all-free bitmap of 257 pages; `allocate_frame` returns frame `0x100000`. -/
theorem allocate_frame_above_one_mib_witness :
    (0x100000 : Nat) ≤ 0x100000 ∧ (0x100000 : Nat) ≠ 0 ∧
      (∀ g t', BootInfoFrameAllocator.allocate_conventional_memory_frame
          ⟨[⟨0x100000, 0x102000, MemoryRegionKind.Usable⟩], 0, List.replicate 257 false⟩ =
          some (g, t') → g < 0x100000) :=
  allocate_frame_above_one_mib
    ⟨[⟨0x100000, 0x102000, MemoryRegionKind.Usable⟩], 0, List.replicate 257 false⟩
    0x100000
    ⟨[⟨0x100000, 0x102000, MemoryRegionKind.Usable⟩], 1,
      (List.replicate 257 false).set 256 true⟩
    (by rfl)

lemma set_false_of_getD_false (l : List Bool) :
    ∀ p, l.getD p false = false → l.set p false = l := by
  induction l with
  | nil => intro p _; rfl
  | cons a rest ih =>
    intro p hp
    cases p with
    | zero =>
      have ha : a = false := by simpa using hp
      simp [List.set, ha]
    | succ p' =>
      simp only [List.set, List.cons.injEq]
      exact ⟨trivial, ih p' (by simpa using hp)⟩

/-- Claim C8: if `allocate_frame` succeeds with frame `f`, then immediately
calling `free(f)` returns the page bitmap to exactly its prior state: the bit
of `f`'s page (set by the allocation from free to used) is cleared again and
every other bit is untouched. -/
theorem allocate_then_free_restores (s : FrameAllocState) (f : Nat) (s' : FrameAllocState)
    (h : BootInfoFrameAllocator.allocate_frame s = some (f, s')) :
    (BootInfoFrameAllocator.free s' f).used = s.used ∧
      s'.used.getD (get_page f) false = true ∧
      s.used.getD (get_page f) false = false := by
  obtain ⟨-, hlt, hfree, hset⟩ := allocate_frame_char s f s' h
  refine ⟨?_, ?_, hfree⟩
  · show s'.used.set (get_page f) false = s.used
    rw [hset, List.set_set]
    exact set_false_of_getD_false s.used (get_page f) hfree
  · rw [hset, getD_set_bool]
    rw [if_pos ⟨rfl, hlt⟩]

set_option maxRecDepth 100000 in
/-- Witness for C8 at the same concrete state as the C4 witness: allocating
frame `0x100000` sets bit 256 and freeing it restores the all-false bitmap. -/
theorem allocate_then_free_restores_witness :
    (BootInfoFrameAllocator.free
        ⟨[⟨0x100000, 0x102000, MemoryRegionKind.Usable⟩], 1,
          (List.replicate 257 false).set 256 true⟩ 0x100000).used =
      List.replicate 257 false ∧
    ((List.replicate 257 false).set 256 true).getD (get_page 0x100000) false = true ∧
    (List.replicate 257 false : List Bool).getD (get_page 0x100000) false = false :=
  allocate_then_free_restores
    ⟨[⟨0x100000, 0x102000, MemoryRegionKind.Usable⟩], 0, List.replicate 257 false⟩
    0x100000
    ⟨[⟨0x100000, 0x102000, MemoryRegionKind.Usable⟩], 1,
      (List.replicate 257 false).set 256 true⟩
    (by rfl)

/-! ## MemoryManager::allocate_contigious_address_range (src/kernel/src/memory/mod.rs)

The page table is abstracted to the set of mapped virtual pages:
`mapped` lists `(virtual page number, physical frame, flags)` entries;
`translate_page(page)` is `Ok` exactly when the page occurs in it, and
`map_to(page, frame, flags)` appends an entry. The kernel frame allocator is
abstracted to a supply list of frames (`allocate_frame` pops the head, `none`
when exhausted). `next_free_page` is a virtual address. -/

structure MMState where
  mapped : List (Nat × Nat × Nat)
  nextFreePage : Nat
deriving DecidableEq

/-- `translate_page(page).is_ok()` over the abstracted page table. -/
def isMapped (mapped : List (Nat × Nat × Nat)) (p : Nat) : Bool :=
  mapped.any (fun e => e.1 == p)

/-- The conflict scan of one iteration of the outer `loop`: the source walks
`Page::range_inclusive(start_page, end_page)` - the pages + 1 pages
`start, ..., start + pages` - and breaks at the first one `translate_page`
resolves. `some k` is the offset of that first conflict. -/
def conflictIdx (mapped : List (Nat × Nat × Nat)) (pages start : Nat) : Option Nat :=
  (List.range (pages + 1)).find? (fun k => isMapped mapped (start + k))

def maxMappedPage (mapped : List (Nat × Nat × Nat)) : Nat :=
  mapped.foldr (fun e acc => Nat.max e.1 acc) 0

lemma isMapped_le_maxMappedPage (mapped : List (Nat × Nat × Nat)) (p : Nat) :
    isMapped mapped p = true → p ≤ maxMappedPage mapped := by
  induction mapped with
  | nil => intro h; exact absurd h (by simp [isMapped])
  | cons e rest ih =>
    intro h
    have h2 : e.1 = p ∨ isMapped rest p = true := by
      simpa [isMapped] using h
    rcases h2 with h1 | h1
    · rw [maxMappedPage, List.foldr_cons, h1]
      exact Nat.le_max_left _ _
    · rw [maxMappedPage, List.foldr_cons]
      exact Nat.le_trans (ih h1) (Nat.le_max_right _ _)

/-- The mapping `for` loop once a conflict-free window is found: for each page
(in order) one frame is taken from the allocator (`return None` when the
allocator is exhausted) and `map_to(page, frame, flags)` installs the leaf. -/
def mapLoop (flags : Nat) :
    List (Nat × Nat × Nat) → List Nat → List Nat → Option (List (Nat × Nat × Nat) × List Nat)
  | mapped, frames, [] => some (mapped, frames)
  | mapped, frames, p :: rest =>
    match frames with
    | [] => none
    | fr :: frames' => mapLoop flags (mapped ++ [(p, fr, flags)]) frames' rest

/-- The outer `loop` of `allocate_contigious_address_range`: on a conflict at
offset `k` the window restarts one page further (`start_page + 1`), and
`next_free_page` is bumped to that restart address only when the conflict was
at the window's first page (`start_page == page`); with no conflict the
`pages + 1` pages `start ..= start + pages` are mapped and
`start_page.start_address()` is returned. `next_free_page` is NOT written on
the success path. -/
def allocLoop (frames : List Nat) (flags pages : Nat) (mapped : List (Nat × Nat × Nat))
    (start nextFree : Nat) : Option (Nat × List (Nat × Nat × Nat) × List Nat × Nat) :=
  match h : conflictIdx mapped pages start with
  | some k =>
    allocLoop frames flags pages mapped (start + 1)
      (if k = 0 then (start + 1) * 4096 else nextFree)
  | none =>
    match mapLoop flags mapped frames ((List.range (pages + 1)).map (fun k => start + k)) with
    | none => none
    | some (mapped', frames') => some (start * 4096, mapped', frames', nextFree)
termination_by maxMappedPage mapped + 1 - start
decreasing_by
  have hk : isMapped mapped (start + k) = true := by
    simpa using List.find?_some h
  have hle : start + k ≤ maxMappedPage mapped := isMapped_le_maxMappedPage mapped (start + k) hk
  omega

/-- The initial cursor (as a page number): `next_free_page`, bumped up to
`align_down(earliest_address, 4096)` when that is larger, then
`Page::containing_address`. -/
def contigStart (s : MMState) (earliest : Option Nat) : Nat :=
  (match earliest with
   | none => s.nextFreePage
   | some e => if s.nextFreePage < e / 4096 * 4096 then e / 4096 * 4096 else s.nextFreePage) / 4096

/-- Source: `MemoryManager::allocate_contigious_address_range(pages,
earliest_address, flags)`. Returns the start address, the new manager state and
the remaining frame supply. -/
def MemoryManager.allocate_contigious_address_range (s : MMState) (frames : List Nat)
    (pages : Nat) (earliest : Option Nat) (flags : Nat) :
    Option (Nat × MMState × List Nat) :=
  match allocLoop frames flags pages s.mapped (contigStart s earliest) s.nextFreePage with
  | none => none
  | some (addr, mapped', frames', nextFree') => some (addr, ⟨mapped', nextFree'⟩, frames')

lemma allocLoop_eq (frames : List Nat) (flags pages : Nat) (mapped : List (Nat × Nat × Nat))
    (start nextFree : Nat) :
    allocLoop frames flags pages mapped start nextFree =
      match h : conflictIdx mapped pages start with
      | some k =>
        allocLoop frames flags pages mapped (start + 1)
          (if k = 0 then (start + 1) * 4096 else nextFree)
      | none =>
        match mapLoop flags mapped frames ((List.range (pages + 1)).map (fun k => start + k)) with
        | none => none
        | some (mapped', frames') => some (start * 4096, mapped', frames', nextFree) := by
  rw [allocLoop]

lemma mapLoop_spec (flags : Nat) :
    ∀ (ps : List Nat) (mapped : List (Nat × Nat × Nat)) (frames : List Nat),
    ps.length ≤ frames.length →
    mapLoop flags mapped frames ps =
      some (mapped ++ (ps.zip (frames.take ps.length)).map (fun pr => (pr.1, pr.2, flags)),
        frames.drop ps.length) := by
  intro ps
  induction ps with
  | nil => intro mapped frames _; simp [mapLoop]
  | cons p rest ih =>
    intro mapped frames h
    cases frames with
    | nil => simp at h
    | cons fr frames' =>
      rw [mapLoop, ih (mapped ++ [(p, fr, flags)]) frames' (by simpa using h)]
      simp

lemma allocLoop_success (frames : List Nat) (flags pages : Nat)
    (mapped : List (Nat × Nat × Nat)) (start nextFree : Nat)
    (h : conflictIdx mapped pages start = none) :
    allocLoop frames flags pages mapped start nextFree =
      match mapLoop flags mapped frames ((List.range (pages + 1)).map (fun k => start + k)) with
      | none => none
      | some (mapped', frames') => some (start * 4096, mapped', frames', nextFree) := by
  rw [allocLoop_eq]
  split
  · rename_i k hk
    rw [h] at hk
    exact absurd hk (by simp)
  · rfl

/-- Claim C2, counterexample: empty page table, cursor at `0x500000`, two
frames available, `pages = 1` (so the claim expects 1 frame allocated, 1 page
mapped, cursor advanced to `0x501000`). The code instead maps the inclusive
range of 2 pages `0x500, 0x501`, consumes both frames, and leaves the cursor
at `0x500000`. -/
theorem allocate_contigious_cex :
    MemoryManager.allocate_contigious_address_range ⟨[], 0x500000⟩ [11, 12] 1 none 3 =
      some (0x500000, ⟨[(0x500, 11, 3), (0x501, 12, 3)], 0x500000⟩, []) ∧
    (0x500000 : Nat) ≠ 0x500000 + 4096 ∧ (2 : Nat) ≠ 1 := by
  refine ⟨?_, by omega, by omega⟩
  rw [MemoryManager.allocate_contigious_address_range,
    allocLoop_success _ _ _ _ _ _ (by decide)]
  decide

/-- Claim C2 (amended): when the initial cursor position c (computed from
next_free_page and earliest_address) has all of the inclusive range
[c, c+n] unmapped and at least n+1 frames are available, the call allocates
exactly n + 1 physical frames, maps exactly the n + 1 pages [c, c+n] (the
source iterates `Page::range_inclusive`) with the requested flags, leaves
next_free_kernel_virtual_page unchanged (it is only written when a conflict
hits the window's first page, never on success), and returns the start
address c. -/
theorem allocate_contigious_spec (s : MMState) (frames : List Nat) (pages : Nat)
    (earliest : Option Nat) (flags : Nat)
    (hfree : ∀ k, k < pages + 1 → isMapped s.mapped (contigStart s earliest + k) = false)
    (hframes : pages + 1 ≤ frames.length) :
    MemoryManager.allocate_contigious_address_range s frames pages earliest flags =
      some (contigStart s earliest * 4096,
        ⟨s.mapped ++
            ((((List.range (pages + 1)).map (fun k => contigStart s earliest + k)).zip
                (frames.take (pages + 1))).map (fun pr => (pr.1, pr.2, flags))),
          s.nextFreePage⟩,
        frames.drop (pages + 1)) := by
  have hconf : conflictIdx s.mapped pages (contigStart s earliest) = none := by
    rw [conflictIdx, List.find?_eq_none]
    intro k hk
    have hklt : k < pages + 1 := by simpa using hk
    simp [hfree k hklt]
  have hlen : ((List.range (pages + 1)).map (fun k => contigStart s earliest + k)).length =
      pages + 1 := by simp
  rw [MemoryManager.allocate_contigious_address_range,
    allocLoop_success _ _ _ _ _ _ hconf,
    mapLoop_spec flags _ s.mapped frames (by rw [hlen]; exact hframes), hlen]

/-- Witness for the amended C2 theorem at a concrete input: empty table,
cursor `0x500000`, one frame, `pages = 0`: the inclusive range of one page is
mapped, the frame consumed, the cursor untouched, start address returned. -/
theorem allocate_contigious_spec_witness :
    MemoryManager.allocate_contigious_address_range ⟨[], 0x500000⟩ [11] 0 none 3 =
      some (0x500000, ⟨[(0x500, 11, 3)], 0x500000⟩, []) :=
  allocate_contigious_spec ⟨[], 0x500000⟩ [11] 0 none 3 (by decide) (by decide)

/-! ## KernelAllocator heap growth (src/kernel/src/memory/allocator.rs)

The `linked_list_allocator::LockedHeap` inner allocator is external to the
repository, so it is abstracted: the heap state is an arbitrary type `σ` with
an allocation function `allocOp : σ → Layout → Nat × σ` (returning the
address, 0 = null = failure, exactly the `GlobalAlloc` convention), a size
query `sizeOf` and an extension `extendOp : σ → Nat → σ` (the source's
`locked_allocator.extend(bytes)`). `allocate_heap_space` (which asks the
MemoryManager for pages and panics on `None` via `.expect`) is abstracted as
`Nat → Option Nat` from a page count to the address. `PAGE_SIZE = 4096`. -/

structure Layout where
  size : Nat
  align : Nat
deriving DecidableEq

def PAGE_SIZE : Nat := 4096

/-- Source: `KernelAllocator::extend_heap(needed_bytes)`: panics (`none`) on an
uninitialised (size 0) heap; computes
`pages_to_allocate = max(current_size / PAGE_SIZE + 1, needed_bytes * 8 / PAGE_SIZE + 1)`;
requests that many contiguous pages (`allocate_heap_space`), panicking when the
returned pointer is null; extends the inner allocator by
`pages_to_allocate * PAGE_SIZE` bytes. Returns the extended heap together with
the page count it requested. -/
def KernelAllocator.extend_heap {σ : Type} (sizeOf : σ → Nat) (extendOp : σ → Nat → σ)
    (allocate_heap_space : Nat → Option Nat) (st : σ) (needed_bytes : Nat) :
    Option (σ × Nat) :=
  let current_size := sizeOf st
  if current_size = 0 then none
  else
    let pages_to_allocate := current_size / PAGE_SIZE + 1
    let needed_pages := needed_bytes * 8 / PAGE_SIZE + 1
    let pages_to_allocate :=
      if pages_to_allocate < needed_pages then needed_pages else pages_to_allocate
    match allocate_heap_space pages_to_allocate with
    | none => none
    | some addr =>
      if addr = 0 then none
      else some (extendOp st (pages_to_allocate * PAGE_SIZE), pages_to_allocate)

/-- Source: `unsafe fn alloc(&self, layout)`: try the inner allocator; on a
null result compute `needed_size = layout.size() + layout.align()`, grow via
`extend_heap`, and retry the inner allocation exactly once. The result carries
the returned address, the final heap state, and the number of pages that were
requested from the memory manager (0 on the fast path). -/
def KernelAllocator.alloc {σ : Type} (allocOp : σ → Layout → Nat × σ) (sizeOf : σ → Nat)
    (extendOp : σ → Nat → σ) (allocate_heap_space : Nat → Option Nat) (st : σ)
    (layout : Layout) : Option (Nat × σ × Nat) :=
  match allocOp st layout with
  | (ret, st1) =>
    if ret ≠ 0 then some (ret, st1, 0)
    else
      let needed_size := layout.size + layout.align
      match KernelAllocator.extend_heap sizeOf extendOp allocate_heap_space st1 needed_size with
      | none => none
      | some (st2, pages) =>
        match allocOp st2 layout with
        | (ret2, st3) => some (ret2, st3, pages)

/-- Claim C6: when the inner allocation fails (null), the heap grows by exactly
`pages = max(current_size_in_pages, needed_bytes * 8 / page_size) + 1` pages
with `needed_bytes = layout.size + layout.align`: that many contiguous pages
are requested from the memory manager, the inner free structure is extended by
`pages * 4096` bytes, and the allocation is retried exactly once. -/
theorem heap_growth_formula {σ : Type} (allocOp : σ → Layout → Nat × σ) (sizeOf : σ → Nat)
    (extendOp : σ → Nat → σ) (allocate_heap_space : Nat → Option Nat) (st : σ)
    (layout : Layout)
    (hfail : (allocOp st layout).1 = 0)
    (hinit : sizeOf (allocOp st layout).2 ≠ 0)
    (hspace : ∀ p, ∃ a, allocate_heap_space p = some a ∧ a ≠ 0) :
    KernelAllocator.alloc allocOp sizeOf extendOp allocate_heap_space st layout =
      (let st1 := (allocOp st layout).2
       let pages := Nat.max (sizeOf st1 / PAGE_SIZE)
         ((layout.size + layout.align) * 8 / PAGE_SIZE) + 1
       let st2 := extendOp st1 (pages * PAGE_SIZE)
       some ((allocOp st2 layout).1, (allocOp st2 layout).2, pages)) := by
  rw [KernelAllocator.alloc]
  cases hres : allocOp st layout with
  | mk ret st1 =>
    have hret : ret = 0 := by rw [hres] at hfail; exact hfail
    subst hret
    simp only [ne_eq, not_true_eq_false, reduceIte, if_neg]
    rw [KernelAllocator.extend_heap]
    have hsz : sizeOf st1 ≠ 0 := by
      rw [hres] at hinit
      exact hinit
    rw [if_neg hsz]
    obtain ⟨a, ha, ha0⟩ := hspace
      (if sizeOf st1 / PAGE_SIZE + 1 < (layout.size + layout.align) * 8 / PAGE_SIZE + 1 then
        (layout.size + layout.align) * 8 / PAGE_SIZE + 1
       else sizeOf st1 / PAGE_SIZE + 1)
    have hpg :
        (if sizeOf st1 / PAGE_SIZE + 1 < (layout.size + layout.align) * 8 / PAGE_SIZE + 1 then
          (layout.size + layout.align) * 8 / PAGE_SIZE + 1
         else sizeOf st1 / PAGE_SIZE + 1) =
        Nat.max (sizeOf st1 / PAGE_SIZE) ((layout.size + layout.align) * 8 / PAGE_SIZE) + 1 := by
      have hmd : Nat.max (sizeOf st1 / PAGE_SIZE) ((layout.size + layout.align) * 8 / PAGE_SIZE) =
          if sizeOf st1 / PAGE_SIZE ≤ (layout.size + layout.align) * 8 / PAGE_SIZE then
            (layout.size + layout.align) * 8 / PAGE_SIZE
          else sizeOf st1 / PAGE_SIZE := Nat.max_def ..
      rw [hmd]
      split <;> split <;> omega
    simp only []
    rw [hpg] at ha
    rw [hpg, ha]
    simp [ha0, hres]

/-- Witness for C6 at a concrete instantiation: heap state = its size (`Nat`),
`allocOp` succeeds only when the layout fits, initial size 4096, layout
(8192, 8): the first try fails, the heap grows by max(1, 16) + 1 = 17 pages =
69632 bytes, and the retry succeeds. -/
theorem heap_growth_formula_witness :
    KernelAllocator.alloc
        (fun s l => (if l.size ≤ s then 1000 + s else 0, s)) (fun s => s)
        (fun s b => s + b) (fun p => some (p + 1)) 4096 ⟨8192, 8⟩ =
      some (1000 + 73728, 73728, 17) :=
  heap_growth_formula (fun s l => (if l.size ≤ s then 1000 + s else 0, s)) (fun s => s)
    (fun s b => s + b) (fun p => some (p + 1)) 4096 ⟨8192, 8⟩
    (by decide) (by decide) (fun p => ⟨p + 1, rfl, by omega⟩)

/-! ## TscSpinTimer calibration (src/kernel/src/arch/arch_x86_64/timer/mod.rs)

The two hardware measurements are abstracted as inputs:
`pitResult` is what `fast_calibrate_with_pit()` returns (CPU kHz, `none` on
failure) and `rtcResult` is what the RTC-based `calibrate()` returns
(ticks per microsecond). The embedding of `TscSpinTimer::new` follows the
source statement by statement; it additionally reports whether `calibrate()`
(the RTC path) was executed. -/

structure TscSpinTimer where
  ticks_per_micro : Nat
deriving DecidableEq

/-- Source: `TscSpinTimer::unsafe_new(ticks_per_micro)` (renamed: the original
name is not legal here). -/
def TscSpinTimer.raw_new (ticks_per_micro : Nat) : TscSpinTimer :=
  { ticks_per_micro := ticks_per_micro }

/-- Source, verbatim control flow of `TscSpinTimer::new()`:

`if let Some(fast_cal) = fast_calibrate_with_pit() { debug!(...);
Self::unsafe_new(fast_cal / 1000); } Self::unsafe_new(calibrate())`

The `Self::unsafe_new(fast_cal / 1000);` in the success arm is a STATEMENT
(trailing semicolon, no `return`): the constructed timer is dropped, the arm
falls through, and `Self::unsafe_new(calibrate())` is what the function
returns in both cases. The second component records that `calibrate()` ran. -/
def TscSpinTimer.new (pitResult : Option Nat) (rtcResult : Nat) : TscSpinTimer × Bool :=
  match pitResult with
  | some fast_cal =>
    let dropped := TscSpinTimer.raw_new (fast_cal / 1000)
    let _ := dropped
    (TscSpinTimer.raw_new rtcResult, true)
  | none => (TscSpinTimer.raw_new rtcResult, true)

/-- Claim C3 (code bug), evaluated at the failing input: on a machine whose PIT
fast path succeeds with 3 000 000 kHz (3 GHz), `TscSpinTimer::new` still runs
the RTC calibration and returns ITS value (here 7), not the PIT-derived
3 000 000 / 1000 = 3000 ticks per microsecond the claim requires. -/
theorem tsc_new_ignores_pit_result :
    TscSpinTimer.new (some 3000000) 7 = (TscSpinTimer.raw_new 7, true) ∧
    TscSpinTimer.raw_new 7 ≠ TscSpinTimer.raw_new (3000000 / 1000) ∧
    (∀ rtc : Nat, TscSpinTimer.new (some 3000000) rtc = (TscSpinTimer.raw_new rtc, true)) :=
  ⟨rfl, by decide, fun _ => rfl⟩

/-! ## Software interrupt handler table (src/kernel/src/arch/arch_x86_64/idt/mod.rs)

`SOFTWARE_HANDLERS` is a spinlocked `[Option<SoftwareInterruptHandler>; 224]`;
handlers are abstracted as `Nat` identifiers. `set_interrupt_handler` takes a
`u8` vector (so `v < 256` always holds at the call boundary); `none` embeds
the `panic!` for vectors below 32, which aborts before the table is touched. -/

def set_interrupt_handler (interrupt : Nat) (handler : Option Nat)
    (table : List (Option Nat)) : Option (List (Option Nat)) :=
  if interrupt < 32 then none
  else some (table.set (interrupt - 32) handler)

/-- Claim C9: for every vector v < 256 (`u8`): below 32 the call fails
(panics) without producing a table, and at or above 32 it stores the handler
at slot v - 32, which is inside the 224-entry table. -/
theorem set_interrupt_handler_spec (v : Nat) (handler : Option Nat)
    (table : List (Option Nat)) (hv : v < 256) :
    (v < 32 → set_interrupt_handler v handler table = none) ∧
    (32 ≤ v → set_interrupt_handler v handler table = some (table.set (v - 32) handler) ∧
      v - 32 < 224) := by
  constructor
  · intro h32
    rw [set_interrupt_handler, if_pos h32]
  · intro h32
    rw [set_interrupt_handler, if_neg (by omega)]
    exact ⟨rfl, by omega⟩

/-- Witness for C9 at vectors 10 (fails, table untouched) and 0x80 (stored in
slot 96). -/
theorem set_interrupt_handler_spec_witness :
    set_interrupt_handler 10 (some 5) [none, none] = none ∧
    (set_interrupt_handler 0x80 (some 5) (List.replicate 224 none) =
      some ((List.replicate 224 none).set 96 (some 5)) ∧ (0x80 : Nat) - 32 < 224) :=
  ⟨(set_interrupt_handler_spec 10 (some 5) [none, none] (by decide)).1 (by decide),
   (set_interrupt_handler_spec 0x80 (some 5) (List.replicate 224 none) (by decide)).2
     (by decide)⟩

/-! ## AP bring-up: InterProcessorInterruptPayload::boot
(src/kernel/src/arch/arch_x86_64/cpu/mod.rs)

`boot()` interacts with the trampoline/status bits through `is_ready()` and
`boot_diag()` (with `is_booting() = boot_diag() != 0`). These are reads of
memory another CPU writes concurrently, so the environment is modelled as two
observation streams: the k-th call to `is_ready()` returns `ready k` and the
k-th call to `boot_diag()` returns `diag k`. The two unbounded `while !ready`
waits are given fuel; `none` is a run that has not terminated within the fuel
(the claim is about terminating runs). The result carries the outcome
(normal return or panic message) and the number of START-UP IPIs sent. -/

structure BootEnv where
  ready : Nat → Bool
  diag : Nat → Nat

inductive BootOutcome where
  | ok
  | panicked (msg : String)
deriving DecidableEq

/-- The `while !self.is_ready()` wait inside the `is_booting()` branch: each
failed iteration also reads `boot_diag()` once (for the state-change debug
message). Returns the advanced read counters. -/
def innerWait (env : BootEnv) : Nat → Nat → Nat → Option (Nat × Nat)
  | rc, dc, 0 => none
  | rc, dc, fuel + 1 =>
    if env.ready rc then some (rc + 1, dc)
    else innerWait env (rc + 1) (dc + 1) fuel

/-- The `for x in 0..2` attempt loop, by remaining iterations: break when
`is_ready()`; otherwise send one START-UP IPI, spin, and - when `is_booting()`
(one `boot_diag()` read) - read `boot_diag()` once more for `boot_state` and
enter the inner wait. -/
def attemptLoop (env : BootEnv) (fuel : Nat) : Nat → Nat → Nat → Nat → Option (Nat × Nat × Nat)
  | 0, rc, dc, sipis => some (rc, dc, sipis)
  | xleft + 1, rc, dc, sipis =>
    if env.ready rc then some (rc + 1, dc, sipis)
    else
      if env.diag dc ≠ 0 then
        match innerWait env (rc + 1) (dc + 2) fuel with
        | none => none
        | some (rc', dc') => attemptLoop env fuel xleft rc' dc' (sipis + 1)
      else attemptLoop env fuel xleft (rc + 1) (dc + 1) (sipis + 1)

/-- `wait_for_cpu_online()`: spin until `is_ready()`. -/
def waitOnline (env : BootEnv) : Nat → Nat → Option Nat
  | rc, 0 => none
  | rc, fuel + 1 => if env.ready rc then some (rc + 1) else waitOnline env (rc + 1) fuel

/-- Source: `InterProcessorInterruptPayload::boot()`: clear the booting flag,
send the INIT IPI, run the two-attempt SIPI loop, then
`if !self.is_ready() { panic!("CPU BOOT FAILED FOR CPU: {}", cpu_id) }` and
finally `wait_for_cpu_online()`. -/
def InterProcessorInterruptPayload.boot (env : BootEnv) (cpu_id : Nat) (fuel : Nat) :
    Option (BootOutcome × Nat) :=
  match attemptLoop env fuel 2 0 0 0 with
  | none => none
  | some (rc, _, sipis) =>
    if env.ready rc then
      match waitOnline env (rc + 1) fuel with
      | none => none
      | some _ => some (BootOutcome.ok, sipis)
    else some (BootOutcome.panicked ("CPU BOOT FAILED FOR CPU: " ++ toString cpu_id), sipis)

lemma attemptLoop_sipis (env : BootEnv) (fuel : Nat) :
    ∀ (xleft rc dc sipis rc' dc' sipis' : Nat),
    attemptLoop env fuel xleft rc dc sipis = some (rc', dc', sipis') →
    sipis' ≤ sipis + xleft := by
  intro xleft
  induction xleft with
  | zero =>
    intro rc dc sipis rc' dc' sipis' h
    have hinj : rc = rc' ∧ dc = dc' ∧ sipis = sipis' := by simpa [attemptLoop] using h
    omega
  | succ x ih =>
    intro rc dc sipis rc' dc' sipis' h
    rw [attemptLoop] at h
    by_cases hr : env.ready rc = true
    · rw [if_pos hr] at h
      have hinj : rc + 1 = rc' ∧ dc = dc' ∧ sipis = sipis' := by simpa using h
      omega
    · rw [if_neg hr] at h
      by_cases hb : env.diag dc ≠ 0
      · rw [if_pos hb] at h
        cases hw : innerWait env (rc + 1) (dc + 2) fuel with
        | none => rw [hw] at h; exact absurd h (by simp)
        | some p =>
          obtain ⟨rc2, dc2⟩ := p
          rw [hw] at h
          have := ih rc2 dc2 (sipis + 1) rc' dc' sipis' h
          omega
      · rw [if_neg hb] at h
        have := ih (rc + 1) (dc + 1) (sipis + 1) rc' dc' sipis' h
        omega

/-- Claim C5: in every terminating run of `boot()`, at most two START-UP IPIs
are sent; a normal return can only happen after the AP's ready bit was
observed set; and when the post-loop check still observes the ready bit clear,
the function panics with a message ending in the AP's APIC ID. -/
theorem boot_spec (env : BootEnv) (cpu_id fuel : Nat) (out : BootOutcome) (sipis : Nat)
    (h : InterProcessorInterruptPayload.boot env cpu_id fuel = some (out, sipis)) :
    sipis ≤ 2 ∧
    (out = BootOutcome.ok → ∃ k, env.ready k = true) ∧
    (∀ s, out = BootOutcome.panicked s → ∃ pre, s = pre ++ toString cpu_id) := by
  rw [InterProcessorInterruptPayload.boot] at h
  split at h
  · exact absurd h (by simp)
  · rename_i rc dc si hA
    have hsi : si ≤ 2 := by
      have := attemptLoop_sipis env fuel 2 0 0 0 rc dc si hA
      omega
    by_cases hr : env.ready rc = true
    · rw [if_pos hr] at h
      split at h
      · exact absurd h (by simp)
      · have hinj : BootOutcome.ok = out ∧ si = sipis := by simpa using h
        obtain ⟨ho, hs⟩ := hinj
        refine ⟨by omega, fun _ => ⟨rc, hr⟩, ?_⟩
        intro s hps
        rw [← ho] at hps
        exact absurd hps (by simp)
    · rw [if_neg hr] at h
      have hinj :
          BootOutcome.panicked ("CPU BOOT FAILED FOR CPU: " ++ toString cpu_id) = out ∧
            si = sipis := by simpa using h
      obtain ⟨ho, hs⟩ := hinj
      refine ⟨by omega, ?_, ?_⟩
      · intro hok
        rw [← ho] at hok
        exact absurd hok (by simp)
      · intro s hps
        rw [← ho] at hps
        have hmsg : "CPU BOOT FAILED FOR CPU: " ++ toString cpu_id = s := by
          simpa using hps
        exact ⟨"CPU BOOT FAILED FOR CPU: ", hmsg.symm⟩

/-- Witness for C5 at a concrete run: the ready bit is never observed set and
the AP never reports booting; `boot()` sends exactly two SIPIs and panics with
a message ending in the APIC ID 7. -/
theorem boot_spec_witness :
    (2 : Nat) ≤ 2 ∧
    (BootOutcome.panicked ("CPU BOOT FAILED FOR CPU: " ++ toString (7 : Nat)) =
        BootOutcome.ok →
      ∃ k, (BootEnv.mk (fun _ => false) (fun _ => 0)).ready k = true) ∧
    (∀ s, BootOutcome.panicked ("CPU BOOT FAILED FOR CPU: " ++ toString (7 : Nat)) =
        BootOutcome.panicked s → ∃ pre, s = pre ++ toString (7 : Nat)) :=
  boot_spec ⟨fun _ => false, fun _ => 0⟩ 7 1
    (BootOutcome.panicked ("CPU BOOT FAILED FOR CPU: " ++ toString (7 : Nat))) 2 rfl

/-! ## PageAllocator::initialize (src/kernel/src/memory/page_allocator.rs)

The PageTracker-based initialisation path (the newer allocator). Supporting
material for the C1 analysis: this path does implement what the spec requires
of initialisation - non-Usable (`PageState::Used`) ranges are reserved and
page 0 is blocked - which documents the intent the inverted check in
`BootInfoFrameAllocator::init` fails to implement. A compacted `PageRange` is
embedded as `(used?, start page, end page)`. -/

/-- The `for page_range in memory_map` loop: `free_range` for `Free` ranges,
`reserve_range` for `Used` ones, `.unwrap()` (panic, `none`) on error. -/
def initRangesLoop : PageTracker → List (Bool × Nat × Nat) → Option PageTracker
  | t, [] => some t
  | t, (used, sp, ep) :: rest =>
    match (if used then t.reserve_range sp (ep - sp) else t.free_range sp (ep - sp)) with
    | (t', ok) => if ok then initRangesLoop t' rest else none

/-- Source: `PageAllocator::initialize`: find the maximum range end
(`.max_by(end).unwrap()` - panics on an empty map), resize the fresh tracker
to that page count + 1, apply every range by state, then
`tracker.reserve(0).unwrap()` ("Block the 0 page from being allocated"). -/
def PageAllocator.initTracker (ranges : List (Bool × Nat × Nat)) : Option PageTracker :=
  match ranges.foldr
      (fun r acc => match acc with
        | none => some r.2.2
        | some m => some (Nat.max r.2.2 m)) none with
  | none => none
  | some maxPage =>
    match initRangesLoop ⟨List.replicate (maxPage + 1) false⟩ ranges with
    | none => none
    | some t =>
      match t.reserve 0 with
      | none => none
      | some t' => some t'

set_option maxRecDepth 100000 in
/-- On a map with a Used (firmware-reserved) range covering pages 1-2 and a
Free range for pages 256-511, the tracker path reserves the Used pages AND
page 0, exactly what C1 requires of initialisation. -/
theorem initTracker_reserves_used_and_zero :
    (PageAllocator.initTracker [(true, 1, 3), (false, 256, 512)]).map
        (fun t => (t.is_used 0, t.is_used 1, t.is_used 2, t.is_used 3, t.is_used 256)) =
      some (true, true, true, false, false) := by
  decide
